import Mathlib

/-!
Verification development for the Polymarket chat front-end
(`src/unnamed/part_000`, browser controller and relevance scorer) and the
serverless key proxy (`src/api/get-api-key.js`).

The JavaScript source is shallowly embedded: JS strings become `String`
(lowercasing and substring search are modelled on `List Char` so that every
operation is a structural recursion the kernel can evaluate), JS numbers
holding market volumes become `Int` (`Option Int` where the field is
nullable, since JS `null`/`undefined` compare as false under `>`), and a JS
call that throws becomes an `Option`-valued function returning `none`.
Stateful controller code (`sendMessage`, `analyzeSpecificMarket`) becomes an
explicit state-passing function over an `AppState` record, with the outcome
of the external model call supplied as an oracle argument.
-/

namespace Polymarket

/-! ### JS string and number primitives -/

/-- Lowercase a string into its character list; models
`String.prototype.toLowerCase` on the ASCII data this program handles. -/
def lowerChars (s : String) : List Char := s.toList.map Char.toLower

/-- Check whether `pat` occurs as a contiguous run inside the second list;
auxiliary recursion for `listIncludes`. -/
def containsAux (pat : List Char) : List Char → Bool
  | [] => pat.isEmpty
  | c :: cs => pat.isPrefixOf (c :: cs) || containsAux pat cs

/-- Models JS `hay.includes(pat)` (substring containment). -/
def listIncludes (hay pat : List Char) : Bool := containsAux pat hay

/-- Split a character list at every single space character; models JS
`str.split(' ')`, which keeps empty fragments ("a  b" gives ["a","","b"]
and "" gives [""]). `cur` accumulates the current fragment reversed. -/
def splitWordsAux (cur : List Char) : List Char → List (List Char)
  | [] => [cur.reverse]
  | c :: cs => if c = ' ' then cur.reverse :: splitWordsAux [] cs else splitWordsAux (c :: cur) cs

/-- Models the JS comparison `v > bound` on a nullable numeric field:
`null > bound` and `undefined > bound` are both false. -/
def jsGt (v : Option Int) (bound : Int) : Bool :=
  match v with
  | none => false
  | some x => bound < x

/-- Whitespace test for `jsTrim` (space, tab, newline, carriage return —
the whitespace actually occurring in chat input). -/
def isJsWs (c : Char) : Bool := c == ' ' || c == '\t' || c == '\n' || c == '\r'

/-- Models JS `str.trim()`: strip whitespace from both ends. -/
def jsTrim (s : String) : String :=
  String.mk (((s.toList.dropWhile isJsWs).reverse.dropWhile isJsWs).reverse)

/-! ### Data model

`Market` keeps exactly the fields the verified code paths read: `id`
(used by the lookup in `analyzeSpecificMarket`), `title` and `description`
(read by the scorer via `.toLowerCase()`, hence `Option String`: a missing
field makes that call throw), and the nullable numeric `volume24h`. -/

structure Market where
  id : String
  title : Option String
  description : Option String
  volume24h : Option Int
deriving DecidableEq

/-! ### Relevance scorer — `findRelevantMarkets`, src/unnamed/part_000 lines 145-214 -/

/-- The category keyword table, verbatim from lines 150-161. -/
def categories : List (String × List String) :=
  [ ("premier_league", ["premier league", "epl", "english premier", "manchester", "liverpool",
      "chelsea", "arsenal", "tottenham"]),
    ("football", ["football", "soccer", "fifa", "world cup", "uefa", "champions league"]),
    ("american_football", ["nfl", "super bowl", "american football", "chiefs", "cowboys",
      "patriots"]),
    ("basketball", ["nba", "basketball", "lakers", "warriors", "lebron", "finals"]),
    ("baseball", ["mlb", "baseball", "yankees", "dodgers", "world series"]),
    ("fed_rates", ["fed", "federal reserve", "interest rate", "fomc", "jerome powell"]),
    ("politics", ["election", "president", "biden", "trump", "congress", "senate"]),
    ("crypto", ["bitcoin", "ethereum", "crypto", "btc", "eth", "binance", "coinbase"]),
    ("stocks", ["stock", "nasdaq", "dow", "sp500", "s&p", "apple", "tesla", "nvidia"]),
    ("entertainment", ["oscar", "emmy", "grammy", "movie", "netflix", "disney"]) ]

/-- Lines 172-177: tokenize the lowercased query at spaces, keep words of
length > 2, add 10 per token contained in the lowercased title and 5 per
token contained in the lowercased description. -/
def tokenScore (queryLower titleL descL : List Char) : Int :=
  ((splitWordsAux [] queryLower).filter (fun w => 2 < w.length)).foldl
    (fun s w =>
      (s + (if listIncludes titleL w then 10 else 0)) +
        (if listIncludes descL w then 5 else 0))
    0

/-- Lines 179-188: for every category keyword contained in the lowercased
query, add 15 if that keyword is also contained in the lowercased market
title or description; bonuses stack across keywords. -/
def categoryScore (queryLower titleL descL : List Char) : Int :=
  categories.foldl
    (fun s cat =>
      cat.2.foldl
        (fun s2 kw =>
          if listIncludes queryLower kw.toList then
            if listIncludes titleL kw.toList || listIncludes descL kw.toList then s2 + 15
            else s2
          else s2)
        s)
    0

/-- Lines 190-192: add 3 when `volume24h > 1000000` and a further 2 when
`volume24h > 5000000`. -/
def volumeBonus (vol : Option Int) : Int :=
  (if jsGt vol 1000000 then 3 else 0) + (if jsGt vol 5000000 then 2 else 0)

/-- Full relevance score of one market (lines 167-192), given its present
title and description strings and its nullable 24h volume. -/
def score (query title description : String) (vol : Option Int) : Int :=
  tokenScore (lowerChars query) (lowerChars title) (lowerChars description) +
    categoryScore (lowerChars query) (lowerChars title) (lowerChars description) +
    volumeBonus vol

/-- The scoring loop of lines 167-197. `market.title.toLowerCase()` throws
a TypeError when `title` (or `description`) is missing, aborting the whole
call, so the result is `Option`-valued: `none` models the throw. On success
it returns every market paired with its score, in original order. -/
def marketScores (query : String) : List Market → Option (List (Market × Int))
  | [] => some []
  | m :: ms =>
    match m.title, m.description with
    | some t, some d =>
      match marketScores query ms with
      | some rest => some ((m, score query t d m.volume24h) :: rest)
      | none => none
    | _, _ => none

/-- Stable insertion keeping the list in descending `key` order: the new
element goes before every element whose key is ≤ its own, exactly the
placement a stable sort with comparator `(a, b) => key b - key a` gives. -/
def insertByDesc {α : Type} (key : α → Int) (x : α) : List α → List α
  | [] => [x]
  | y :: ys => if key y ≤ key x then x :: y :: ys else y :: insertByDesc key x ys

/-- Stable sort, descending by `key`; models JS `Array.prototype.sort`
(stable per ES2019) with a numeric descending comparator. -/
def sortByDesc {α : Type} (key : α → Int) : List α → List α
  | [] => []
  | x :: xs => insertByDesc key x (sortByDesc key xs)

/-- Lines 199-203: keep the entries with score > 0 (the `searchScore`
object holds exactly those, in ascending index order), stable-sort them
descending by score, take the first 6 and project back to the markets. -/
def topScored (entries : List (Market × Int)) : List Market :=
  ((sortByDesc (fun p => p.2) (entries.filter (fun p => 0 < p.2))).take 6).map (fun p => p.1)

/-- Models `(m.volume24h || 0)`, the null-coalescing read used by the
fallback sort comparator (line 209). -/
def volOrD (m : Market) : Int := m.volume24h.getD 0

/-- Lines 206-210: the fallback list — markets with `volume24h > 0`,
stable-sorted descending by `volume24h || 0`, first 5. -/
def fallbackMarkets (markets : List Market) : List Market :=
  (sortByDesc volOrD (markets.filter (fun m => jsGt m.volume24h 0))).take 5

/-- The function `findRelevantMarkets` (lines 145-214): score every market (`none` when
scoring throws on a missing field), select the top scored markets, and fall
back to the highest-volume markets when nothing scored above zero. -/
def findRelevantMarkets (query : String) (markets : List Market) : Option (List Market) :=
  match marketScores query markets with
  | none => none
  | some entries =>
    let sel := topScored entries
    some (if sel.isEmpty then fallbackMarkets markets else sel)

/-! ### Display formatting — `createMarketCard`, lines 295-339 -/

/-- One-decimal rendering of `num / den` (both positive in every use),
rounding half away from zero on the exact rational; models
`(num / den).toFixed(1)` for the exactly-representable quotients this
program formats. -/
def toFixed1 (num den : Int) : String :=
  let t := (num * 10 + den / 2) / den
  toString (t / 10) ++ "." ++ toString (t % 10)

/-- The helper `formatVolume` (lines 296-301): `$0` for zero or missing, `$X.XM`
above one million, `$X.XK` above one thousand, plain `$X` otherwise. -/
def formatVolume (vol : Option Int) : String :=
  match vol with
  | none => "$0"
  | some v =>
    if v = 0 then "$0"
    else if 1000000 < v then "$" ++ toFixed1 v 1000000 ++ "M"
    else if 1000 < v then "$" ++ toFixed1 v 1000 ++ "K"
    else "$" ++ toString v

/-- Outcome classification (lines 309-310): `favored` above price 0.6,
`underdog` below 0.4, `neutral` otherwise. Prices are exact rationals in
the embedding. -/
def outcomeClass (price : ℚ) : String :=
  if 0.6 < price then "favored" else if price < 0.4 then "underdog" else "neutral"

/-! ### Key proxy — `handler`, src/api/get-api-key.js lines 3-18 -/

/-- The JSON body the proxy responds with: either an error object or the
`{apiKey}` object. -/
inductive ApiBody where
  | err (msg : String)
  | key (apiKey : String)
deriving DecidableEq

/-- The proxy handler: status code and body as a function of the request
method and the `OPENROUTER_API_KEY` environment value (`none` models an
unset variable; JS `!apiKey` is also true for the empty string). -/
def handler (method : String) (envKey : Option String) : Nat × ApiBody :=
  if method ≠ "GET" then (405, ApiBody.err "Method not allowed")
  else
    match envKey with
    | none => (500, ApiBody.err "API key not configured")
    | some k =>
      if k = "" then (500, ApiBody.err "API key not configured")
      else (200, ApiBody.key k)

/-! ### Conversation controller — `sendMessage` (lines 88-129) and
`analyzeSpecificMarket` (lines 341-359)

The DOM is projected to the fields the control flow reads and writes: the
chat history (`addMessage` appends), the `isLoading` busy flag, the loaded
market data (`none` while still loading) and the text in the input box.
The external model call is an oracle argument: `ModelResult.ok text` is a
successful call whose final rendered reply is `text`, `ModelResult.err`
is any throw out of the awaited pipeline. -/

inductive Sender where
  | user
  | bot
deriving DecidableEq

structure Turn where
  sender : Sender
  content : String
deriving DecidableEq

structure AppState where
  history : List Turn
  isLoading : Bool
  marketData : Option (List Market)
  inputValue : String
deriving DecidableEq

inductive ModelResult where
  | ok (text : String)
  | err
deriving DecidableEq

/-- The fixed error reply appended by the catch block of `sendMessage` (line 125). -/
def sendErrorText : String :=
  "❌ Sorry, I encountered an error while processing your request. Please try again."

/-- The fixed error reply appended by the catch block of
`analyzeSpecificMarket` (line 357). -/
def analyzeErrorText : String :=
  "❌ Sorry, I couldn\x27t analyze this specific market right now."

/-- The controller entry point `sendMessage` (lines 88-129): drop the submission while busy, on empty
trimmed input, or while market data is still loading; otherwise clear the
input, record the user turn, run the model call (with `isLoading` held true
across the await), and append either the reply or the fixed error text,
resetting `isLoading` in the `finally` block. -/
def sendMessage (st : AppState) (mr : ModelResult) : AppState :=
  if st.isLoading then st
  else
    let message := jsTrim st.inputValue
    if message = "" then st
    else
      match st.marketData with
      | none => st
      | some _ =>
        let h1 := st.history ++ [⟨Sender.user, message⟩]
        match mr with
        | ModelResult.ok text =>
          { st with history := h1 ++ [⟨Sender.bot, text⟩], isLoading := false, inputValue := "" }
        | ModelResult.err =>
          { st with history := h1 ++ [⟨Sender.bot, sendErrorText⟩], isLoading := false, inputValue := "" }

/-- The drill-down action `analyzeSpecificMarket` (lines 341-359): look the market up by id — no
`isLoading` check and no `isLoading` assignment anywhere in the function —
append the drill-down user turn, run the model call, and append either the
detailed analysis or the fixed error text. When the data is still `null`
the property read on line 342 throws out of the click handler, leaving the
state unchanged. -/
def analyzeSpecificMarket (st : AppState) (marketId marketTitle : String)
    (mr : ModelResult) : AppState :=
  match st.marketData with
  | none => st
  | some markets =>
    match markets.find? (fun m => m.id == marketId) with
    | none => st
    | some _ =>
      let h1 := st.history ++ [⟨Sender.user, "Tell me more about: " ++ marketTitle⟩]
      match mr with
      | ModelResult.ok text => { st with history := h1 ++ [⟨Sender.bot, text⟩] }
      | ModelResult.err => { st with history := h1 ++ [⟨Sender.bot, analyzeErrorText⟩] }

/-! ### Helper lemmas about the stable descending sort -/

theorem perm_insertByDesc {α : Type} (key : α → Int) (x : α) :
    ∀ l : List α, List.Perm (insertByDesc key x l) (x :: l) := by
  intro l
  induction l with
  | nil => exact List.Perm.refl _
  | cons y ys ih =>
    unfold insertByDesc
    split
    · exact List.Perm.refl _
    · exact (List.Perm.cons y ih).trans (List.Perm.swap x y ys)

theorem perm_sortByDesc {α : Type} (key : α → Int) :
    ∀ l : List α, List.Perm (sortByDesc key l) l := by
  intro l
  induction l with
  | nil => exact List.Perm.refl _
  | cons x xs ih => exact (perm_insertByDesc key x (sortByDesc key xs)).trans (ih.cons x)

theorem pairwise_insertByDesc {α : Type} (key : α → Int) (x : α) :
    ∀ l : List α, l.Pairwise (fun a b => key b ≤ key a) →
      (insertByDesc key x l).Pairwise (fun a b => key b ≤ key a) := by
  intro l
  induction l with
  | nil => intro _; simp [insertByDesc]
  | cons y ys ih =>
    intro h
    rw [List.pairwise_cons] at h
    unfold insertByDesc
    split
    · rename_i hyx
      refine List.pairwise_cons.mpr ⟨?_, List.pairwise_cons.mpr h⟩
      intro z hz
      rcases List.mem_cons.mp hz with rfl | hz'
      · exact hyx
      · exact le_trans (h.1 z hz') hyx
    · rename_i hyx
      refine List.pairwise_cons.mpr ⟨?_, ih h.2⟩
      intro z hz
      have hz2 : z ∈ x :: ys := (perm_insertByDesc key x ys).mem_iff.mp hz
      rcases List.mem_cons.mp hz2 with rfl | hz'
      · exact le_of_lt (not_le.mp hyx)
      · exact h.1 z hz'

theorem pairwise_sortByDesc {α : Type} (key : α → Int) :
    ∀ l : List α, (sortByDesc key l).Pairwise (fun a b => key b ≤ key a) := by
  intro l
  induction l with
  | nil => simp [sortByDesc]
  | cons x xs ih => exact pairwise_insertByDesc key x _ ih

/-! ### Helper lemmas about the score components -/

theorem foldl_ge_init {α : Type} (g : Int → α → Int) (hg : ∀ s a, s ≤ g s a) :
    ∀ (l : List α) (init : Int), init ≤ l.foldl g init := by
  intro l
  induction l with
  | nil => intro init; exact le_refl _
  | cons a l ih => intro init; exact le_trans (hg init a) (ih (g init a))

theorem tokenScore_nonneg (queryLower titleL descL : List Char) :
    0 ≤ tokenScore queryLower titleL descL := by
  unfold tokenScore
  refine foldl_ge_init _ ?_ _ 0
  intro s w
  have h1 : (0 : Int) ≤ if listIncludes titleL w then 10 else 0 := by split <;> norm_num
  have h2 : (0 : Int) ≤ if listIncludes descL w then 5 else 0 := by split <;> norm_num
  linarith

theorem categoryScore_nonneg (queryLower titleL descL : List Char) :
    0 ≤ categoryScore queryLower titleL descL := by
  unfold categoryScore
  refine foldl_ge_init _ ?_ _ 0
  intro s cat
  refine foldl_ge_init _ ?_ _ s
  intro s2 kw
  split
  · split
    · linarith
    · exact le_refl _
  · exact le_refl _

theorem volumeBonus_nonneg (vol : Option Int) : 0 ≤ volumeBonus vol := by
  unfold volumeBonus
  have h1 : (0 : Int) ≤ if jsGt vol 1000000 then 3 else 0 := by split <;> norm_num
  have h2 : (0 : Int) ≤ if jsGt vol 5000000 then 2 else 0 := by split <;> norm_num
  linarith

theorem volumeBonus_le_score (q t d : String) (v : Option Int) :
    volumeBonus v ≤ score q t d v := by
  unfold score
  have h1 := tokenScore_nonneg (lowerChars q) (lowerChars t) (lowerChars d)
  have h2 := categoryScore_nonneg (lowerChars q) (lowerChars t) (lowerChars d)
  linarith

theorem volumeBonus_ge_three (v : Option Int) (h : jsGt v 1000000 = true) :
    3 ≤ volumeBonus v := by
  unfold volumeBonus
  rw [h]
  have h2 : (0 : Int) ≤ if jsGt v 5000000 then 2 else 0 := by split <;> norm_num
  simp only [if_true]
  linarith

theorem jsGt_five_of_not_one (v : Option Int) (h : jsGt v 1000000 = false) :
    jsGt v 5000000 = false := by
  cases v with
  | none => rfl
  | some x =>
    simp only [jsGt, decide_eq_false_iff_not, not_lt] at h ⊢
    omega

theorem volumeBonus_eq_zero (v : Option Int) (h : jsGt v 1000000 = false) :
    volumeBonus v = 0 := by
  unfold volumeBonus
  rw [h, jsGt_five_of_not_one v h]
  norm_num

/-! ### Helper lemmas about the scoring loop -/

theorem marketScores_mem_entries (q : String) :
    ∀ (ms : List Market) (entries : List (Market × Int)),
      marketScores q ms = some entries →
      ∀ p ∈ entries, p.1 ∈ ms ∧ ∃ t d, p.1.title = some t ∧ p.1.description = some d ∧
        p.2 = score q t d p.1.volume24h := by
  intro ms
  induction ms with
  | nil =>
    intro entries h p hp
    simp only [marketScores, Option.some.injEq] at h
    subst h
    exact absurd hp (List.not_mem_nil p)
  | cons m ms ih =>
    intro entries h p hp
    unfold marketScores at h
    cases ht : m.title with
    | none => rw [ht] at h; exact absurd h (by simp)
    | some t =>
      cases hd : m.description with
      | none => rw [ht, hd] at h; exact absurd h (by simp)
      | some d =>
        rw [ht, hd] at h
        cases hr : marketScores q ms with
        | none => rw [hr] at h; exact absurd h (by simp)
        | some rest =>
          rw [hr] at h
          simp only [Option.some.injEq] at h
          subst h
          rcases List.mem_cons.mp hp with rfl | hp'
          · exact ⟨List.mem_cons_self _ _, t, d, ht, hd, rfl⟩
          · obtain ⟨hmem, w⟩ := ih rest hr p hp'
            exact ⟨List.mem_cons_of_mem _ hmem, w⟩

theorem marketScores_mem_markets (q : String) :
    ∀ (ms : List Market) (entries : List (Market × Int)),
      marketScores q ms = some entries →
      ∀ m ∈ ms, ∃ t d, m.title = some t ∧ m.description = some d ∧
        (m, score q t d m.volume24h) ∈ entries := by
  intro ms
  induction ms with
  | nil =>
    intro entries _ m hm
    exact absurd hm (List.not_mem_nil m)
  | cons m0 ms ih =>
    intro entries h m hm
    unfold marketScores at h
    cases ht : m0.title with
    | none => rw [ht] at h; exact absurd h (by simp)
    | some t =>
      cases hd : m0.description with
      | none => rw [ht, hd] at h; exact absurd h (by simp)
      | some d =>
        rw [ht, hd] at h
        cases hr : marketScores q ms with
        | none => rw [hr] at h; exact absurd h (by simp)
        | some rest =>
          rw [hr] at h
          simp only [Option.some.injEq] at h
          subst h
          rcases List.mem_cons.mp hm with rfl | hm'
          · exact ⟨t, d, ht, hd, List.mem_cons_self _ _⟩
          · obtain ⟨t', d', ht', hd', hmem⟩ := ih rest hr m hm'
            exact ⟨t', d', ht', hd', List.mem_cons_of_mem _ hmem⟩

theorem marketScores_isSome (q : String) :
    ∀ ms : List Market, (∀ m ∈ ms, m.title.isSome ∧ m.description.isSome) →
      ∃ entries, marketScores q ms = some entries := by
  intro ms
  induction ms with
  | nil => intro _; exact ⟨[], rfl⟩
  | cons m ms ih =>
    intro h
    obtain ⟨ht, hd⟩ := h m (List.mem_cons_self m ms)
    obtain ⟨t, ht'⟩ := Option.isSome_iff_exists.mp ht
    obtain ⟨d, hd'⟩ := Option.isSome_iff_exists.mp hd
    obtain ⟨rest, hr⟩ := ih (fun x hx => h x (List.mem_cons_of_mem m hx))
    refine ⟨(m, score q t d m.volume24h) :: rest, ?_⟩
    unfold marketScores
    rw [ht', hd', hr]

/-! ### Helper lemmas about selection and fallback -/

theorem length_topScored (entries : List (Market × Int)) :
    (topScored entries).length = min 6 (entries.filter (fun p => 0 < p.2)).length := by
  unfold topScored
  rw [List.length_map, List.length_take, (perm_sortByDesc _ _).length_eq]

theorem mem_topScored (entries : List (Market × Int)) (m : Market)
    (hm : m ∈ topScored entries) : ∃ s : Int, (m, s) ∈ entries ∧ 0 < s := by
  unfold topScored at hm
  obtain ⟨p, hp, hpm⟩ := List.mem_map.mp hm
  have hp1 : p ∈ sortByDesc (fun p => p.2) (entries.filter (fun p => 0 < p.2)) :=
    (List.take_sublist 6 _).subset hp
  have hp2 : p ∈ entries.filter (fun p => 0 < p.2) := (perm_sortByDesc _ _).mem_iff.mp hp1
  obtain ⟨hmem, hpos⟩ := List.mem_filter.mp hp2
  subst hpm
  exact ⟨p.2, hmem, by simpa using hpos⟩

theorem topScored_ne_nil (entries : List (Market × Int))
    (h : entries.filter (fun p => 0 < p.2) ≠ []) : topScored entries ≠ [] := by
  have hlen : 0 < (topScored entries).length := by
    rw [length_topScored]
    have := List.length_pos.mpr h
    omega
  exact List.ne_nil_of_length_pos hlen

theorem topScored_eq_nil (entries : List (Market × Int))
    (h : entries.filter (fun p => 0 < p.2) = []) : topScored entries = [] := by
  unfold topScored
  rw [h]
  rfl

theorem findRelevantMarkets_eq_topScored (q : String) (ms : List Market)
    (entries : List (Market × Int)) (hs : marketScores q ms = some entries)
    (h : topScored entries ≠ []) :
    findRelevantMarkets q ms = some (topScored entries) := by
  unfold findRelevantMarkets
  rw [hs]
  simp only [Option.some.injEq]
  rw [if_neg (by simpa [List.isEmpty_iff] using h)]

theorem findRelevantMarkets_eq_fallback (q : String) (ms : List Market)
    (entries : List (Market × Int)) (hs : marketScores q ms = some entries)
    (h : topScored entries = []) :
    findRelevantMarkets q ms = some (fallbackMarkets ms) := by
  unfold findRelevantMarkets
  rw [hs]
  simp only [Option.some.injEq]
  rw [if_pos (by simpa [List.isEmpty_iff] using h)]

theorem scored_path_of_exists_bigvol (q : String) (ms : List Market)
    (entries : List (Market × Int)) (hs : marketScores q ms = some entries)
    (hex : ∃ m ∈ ms, jsGt m.volume24h 1000000 = true) :
    topScored entries ≠ [] ∧ findRelevantMarkets q ms = some (topScored entries) := by
  obtain ⟨m, hm, hv⟩ := hex
  obtain ⟨t', d', _, _, hmem⟩ := marketScores_mem_markets q ms entries hs m hm
  have hpos : (0 : Int) < score q t' d' m.volume24h :=
    lt_of_lt_of_le (by norm_num)
      (le_trans (volumeBonus_ge_three m.volume24h hv) (volumeBonus_le_score q t' d' m.volume24h))
  have hfil : (m, score q t' d' m.volume24h) ∈ entries.filter (fun p => 0 < p.2) :=
    List.mem_filter.mpr ⟨hmem, by simpa using hpos⟩
  have hne : entries.filter (fun p => 0 < p.2) ≠ [] := List.ne_nil_of_mem hfil
  exact ⟨topScored_ne_nil entries hne,
    findRelevantMarkets_eq_topScored q ms entries hs (topScored_ne_nil entries hne)⟩

theorem mem_fallbackMarkets (ms : List Market) :
    ∀ m ∈ fallbackMarkets ms, jsGt m.volume24h 0 = true := by
  intro m hm
  unfold fallbackMarkets at hm
  have h1 : m ∈ sortByDesc volOrD (ms.filter (fun m => jsGt m.volume24h 0)) :=
    (List.take_sublist 5 _).subset hm
  have h2 : m ∈ ms.filter (fun m => jsGt m.volume24h 0) := (perm_sortByDesc _ _).mem_iff.mp h1
  exact (List.mem_filter.mp h2).2

theorem sorted_fallbackMarkets (ms : List Market) :
    (fallbackMarkets ms).Pairwise (fun a b => volOrD b ≤ volOrD a) := by
  unfold fallbackMarkets
  exact (pairwise_sortByDesc volOrD _).sublist (List.take_sublist 5 _)

theorem length_fallbackMarkets (ms : List Market) : (fallbackMarkets ms).length ≤ 5 := by
  unfold fallbackMarkets
  rw [List.length_take]
  omega

/-! ### Helper lemmas about the empty query -/

theorem tokenScore_nil (titleL descL : List Char) : tokenScore [] titleL descL = 0 := rfl

theorem categoryScore_nil (titleL descL : List Char) : categoryScore [] titleL descL = 0 := rfl

theorem score_empty_query (t d : String) (v : Option Int) :
    score "" t d v = volumeBonus v := by
  show tokenScore [] (lowerChars t) (lowerChars d) +
      categoryScore [] (lowerChars t) (lowerChars d) + volumeBonus v = volumeBonus v
  rw [tokenScore_nil, categoryScore_nil]
  ring

/-! ### Claims -/

/-- C1 (counterexample): as stated over every query and market list, the
claim that `findRelevantMarkets` returns only markets with relevance score
greater than 0 is false: for the query "xyz" over one market with no token,
category or volume hits but a positive 24h volume, the score is 0 and yet
the fallback branch returns that market. -/
theorem findRelevantMarkets_fallback_breaks_positivity :
    findRelevantMarkets "xyz" [⟨"1", some "a", some "a", some 5⟩] =
      some [⟨"1", some "a", some "a", some 5⟩] ∧
    score "xyz" "a" "a" (some 5) = 0 := by
  constructor
  · decide
  · decide

/-- C1 (amended): when at least one market scores above 0 (so the volume
fallback does not apply), `findRelevantMarkets` returns the markets with
score > 0, stable-sorted in descending score order, truncated to at most 6
entries, and exactly 6 when more than 6 qualify; every returned market has
a positive score, and the ordering is the deterministic stable descending
sort. The score itself is the `score` definition: 10 per query token of
length > 2 in the title, 5 per token in the description, 15 per category
keyword in both query and title-or-description, plus 3 for volume24h above
one million and a further 2 above five million. -/
theorem findRelevantMarkets_ranked_selection (q : String) (ms : List Market)
    (entries : List (Market × Int)) (hs : marketScores q ms = some entries)
    (hq : entries.filter (fun p => 0 < p.2) ≠ []) :
    findRelevantMarkets q ms = some (topScored entries) ∧
    (∀ m ∈ topScored entries, ∃ s : Int, (m, s) ∈ entries ∧ 0 < s) ∧
    (topScored entries).length = min 6 (entries.filter (fun p => 0 < p.2)).length ∧
    ((sortByDesc (fun p => p.2) (entries.filter (fun p => 0 < p.2))).take 6).Pairwise
      (fun a b => b.2 ≤ a.2) ∧
    (6 ≤ (entries.filter (fun p => 0 < p.2)).length → (topScored entries).length = 6) := by
  refine ⟨findRelevantMarkets_eq_topScored q ms entries hs (topScored_ne_nil entries hq),
    fun m hm => mem_topScored entries m hm, length_topScored entries,
    (pairwise_sortByDesc (fun p : Market × Int => p.2) _).sublist (List.take_sublist 6 _), ?_⟩
  intro h6
  rw [length_topScored]
  omega

/-- C1 (witness): the amended selection theorem applied to the query "abc"
over a single market whose title contains the token, scoring 10. -/
theorem findRelevantMarkets_ranked_selection_witness :
    findRelevantMarkets "abc" [⟨"1", some "abc", some "", some 0⟩] =
      some (topScored [(⟨"1", some "abc", some "", some 0⟩, 10)]) :=
  (findRelevantMarkets_ranked_selection "abc" [⟨"1", some "abc", some "", some 0⟩]
    [(⟨"1", some "abc", some "", some 0⟩, 10)] (by decide) (by decide)).1

/-- C2 (counterexample): the empty query does not always fall through to
the volume fallback: over two markets with 24h volumes 2000000 and 500000,
the first receives the query-independent volume bonus (score 3), so the
scored path returns just that market, while the fallback list would be both
markets. -/
theorem emptyQuery_not_always_fallback :
    findRelevantMarkets ""
        [⟨"1", some "a", some "a", some 2000000⟩, ⟨"2", some "a", some "a", some 500000⟩] =
      some [⟨"1", some "a", some "a", some 2000000⟩] ∧
    fallbackMarkets
        [⟨"1", some "a", some "a", some 2000000⟩, ⟨"2", some "a", some "a", some 500000⟩] =
      [⟨"1", some "a", some "a", some 2000000⟩, ⟨"2", some "a", some "a", some 500000⟩] ∧
    findRelevantMarkets ""
        [⟨"1", some "a", some "a", some 2000000⟩, ⟨"2", some "a", some "a", some 500000⟩] ≠
      some (fallbackMarkets
        [⟨"1", some "a", some "a", some 2000000⟩, ⟨"2", some "a", some "a", some 500000⟩]) := by
  refine ⟨by decide, by decide, by decide⟩

/-- C2 (amended): for the empty query, token matching and category matching
contribute nothing, so every score equals the volume bonus; the result
falls through to the volume fallback exactly on lists where no market has
volume24h above one million (given scoring does not throw): when every
market is at or below the threshold the fallback list is returned, and
when some market is above it the scored selection is non-empty and is
returned instead. -/
theorem emptyQuery_reduces_to_volumeBonus :
    (∀ (t d : String) (v : Option Int), score "" t d v = volumeBonus v) ∧
    (∀ (ms : List Market) (entries : List (Market × Int)),
      marketScores "" ms = some entries →
      (∀ m ∈ ms, jsGt m.volume24h 1000000 = false) →
      findRelevantMarkets "" ms = some (fallbackMarkets ms)) ∧
    (∀ (ms : List Market) (entries : List (Market × Int)),
      marketScores "" ms = some entries →
      (∃ m ∈ ms, jsGt m.volume24h 1000000 = true) →
      topScored entries ≠ [] ∧ findRelevantMarkets "" ms = some (topScored entries)) := by
  refine ⟨score_empty_query, ?_, ?_⟩
  · intro ms entries hs hv
    have hzero : ∀ p ∈ entries, p.2 = (0 : Int) := by
      intro p hp
      obtain ⟨hmem, t, d, _, _, hscore⟩ := marketScores_mem_entries "" ms entries hs p hp
      rw [hscore, score_empty_query, volumeBonus_eq_zero _ (hv p.1 hmem)]
    have hfil : entries.filter (fun p => 0 < p.2) = [] := by
      rw [List.filter_eq_nil_iff]
      intro p hp
      simp [hzero p hp]
    exact findRelevantMarkets_eq_fallback "" ms entries hs (topScored_eq_nil entries hfil)
  · intro ms entries hs hex
    exact scored_path_of_exists_bigvol "" ms entries hs hex

/-- C2 (witness): the amended theorem applied to a one-market list whose
24h volume is below one million, where the empty query does reach the
fallback. -/
theorem emptyQuery_reduces_to_volumeBonus_witness :
    findRelevantMarkets "" [⟨"2", some "a", some "a", some 500⟩] =
      some (fallbackMarkets [⟨"2", some "a", some "a", some 500⟩]) :=
  emptyQuery_reduces_to_volumeBonus.2.1 [⟨"2", some "a", some "a", some 500⟩]
    [(⟨"2", some "a", some "a", some 500⟩, 0)] (by decide) (by decide)

/-- C3 (counterexample): a market with a missing (null/undefined) title is
not treated as having the empty string: the read of
`market.title.toLowerCase()` throws, aborting the call, modelled as a
`none` result rather than any market list. -/
theorem scoring_fails_on_missing_title :
    findRelevantMarkets "abc" [⟨"1", none, some "d", some 5⟩] = none ∧
    ∀ l : List Market, findRelevantMarkets "abc" [⟨"1", none, some "d", some 5⟩] ≠ some l := by
  refine ⟨rfl, ?_⟩
  intro l h
  exact Option.noConfusion h

/-- C3 (amended): scoring throws on a missing title or description, but on
every market list whose titles and descriptions are all present — including
present-but-empty strings — scoring succeeds for every query, returning a
deterministic list. -/
theorem scoring_total_when_fields_present (q : String) (ms : List Market)
    (h : ∀ m ∈ ms, m.title.isSome ∧ m.description.isSome) :
    ∃ l : List Market, findRelevantMarkets q ms = some l := by
  obtain ⟨entries, hs⟩ := marketScores_isSome q ms h
  unfold findRelevantMarkets
  rw [hs]
  exact ⟨_, rfl⟩

/-- C3 (witness): the amended theorem applied to a non-empty query over a
market whose title and description are both the empty string. -/
theorem scoring_total_when_fields_present_witness :
    ∃ l : List Market, findRelevantMarkets "abc" [⟨"1", some "", some "", some 0⟩] = some l :=
  scoring_total_when_fields_present "abc" [⟨"1", some "", some "", some 0⟩] (by decide)

/-- C4 (counterexample): the concrete instance in the claim fails: for a
query with no token or category hits over markets with 24h volumes
[0, 2000000, 500000], the 2000000 market receives the query-independent
volume bonus (score 3), so the scored path returns just that market rather
than the fallback pair. -/
theorem volume_bonus_preempts_fallback :
    findRelevantMarkets "hello"
        [⟨"a", some "a", some "a", some 0⟩, ⟨"b", some "a", some "a", some 2000000⟩,
          ⟨"c", some "a", some "a", some 500000⟩] =
      some [⟨"b", some "a", some "a", some 2000000⟩] ∧
    fallbackMarkets
        [⟨"a", some "a", some "a", some 0⟩, ⟨"b", some "a", some "a", some 2000000⟩,
          ⟨"c", some "a", some "a", some 500000⟩] =
      [⟨"b", some "a", some "a", some 2000000⟩, ⟨"c", some "a", some "a", some 500000⟩] ∧
    findRelevantMarkets "hello"
        [⟨"a", some "a", some "a", some 0⟩, ⟨"b", some "a", some "a", some 2000000⟩,
          ⟨"c", some "a", some "a", some 500000⟩] ≠
      some [⟨"b", some "a", some "a", some 2000000⟩, ⟨"c", some "a", some "a", some 500000⟩] := by
  refine ⟨by decide, by decide, by decide⟩

/-- C4 (amended): whenever no market receives a score above 0 — which,
because of the query-independent volume bonus, requires that no market has
volume24h above one million — the scorer returns the fallback: up to 5
markets with volume24h > 0 (nulls excluded, since null compares false
under >), stable-sorted descending by volume24h with nulls read as 0. The
concrete instance holds with the large volume below the bonus threshold:
volumes [0, 900000, 500000] give [900000, 500000]. -/
theorem fallback_when_nothing_scores (q : String) (ms : List Market)
    (entries : List (Market × Int)) (hs : marketScores q ms = some entries)
    (hz : ∀ p ∈ entries, p.2 ≤ (0 : Int)) :
    findRelevantMarkets q ms = some (fallbackMarkets ms) ∧
    (∀ m ∈ fallbackMarkets ms, jsGt m.volume24h 0 = true) ∧
    (fallbackMarkets ms).Pairwise (fun a b => volOrD b ≤ volOrD a) ∧
    (fallbackMarkets ms).length ≤ 5 := by
  have hfil : entries.filter (fun p => 0 < p.2) = [] := by
    rw [List.filter_eq_nil_iff]
    intro p hp
    simp only [decide_eq_true_eq, not_lt]
    exact hz p hp
  exact ⟨findRelevantMarkets_eq_fallback q ms entries hs (topScored_eq_nil entries hfil),
    mem_fallbackMarkets ms, sorted_fallbackMarkets ms, length_fallbackMarkets ms⟩

/-- C4 (witness): the amended theorem at the corrected concrete instance:
no hits for the query, volumes [0, 900000, 500000], fallback ordered
[900000, 500000] with the zero-volume market excluded. -/
theorem fallback_when_nothing_scores_witness :
    findRelevantMarkets "hello"
        [⟨"a", some "a", some "a", some 0⟩, ⟨"b", some "a", some "a", some 900000⟩,
          ⟨"c", some "a", some "a", some 500000⟩] =
      some (fallbackMarkets
        [⟨"a", some "a", some "a", some 0⟩, ⟨"b", some "a", some "a", some 900000⟩,
          ⟨"c", some "a", some "a", some 500000⟩]) ∧
    fallbackMarkets
        [⟨"a", some "a", some "a", some 0⟩, ⟨"b", some "a", some "a", some 900000⟩,
          ⟨"c", some "a", some "a", some 500000⟩] =
      [⟨"b", some "a", some "a", some 900000⟩, ⟨"c", some "a", some "a", some 500000⟩] :=
  ⟨(fallback_when_nothing_scores "hello"
      [⟨"a", some "a", some "a", some 0⟩, ⟨"b", some "a", some "a", some 900000⟩,
        ⟨"c", some "a", some "a", some 500000⟩]
      [(⟨"a", some "a", some "a", some 0⟩, 0), (⟨"b", some "a", some "a", some 900000⟩, 0),
        (⟨"c", some "a", some "a", some 500000⟩, 0)] (by decide) (by decide)).1,
    by decide⟩

/-- C5: `formatVolume` maps missing and zero inputs to "$0", values above
one million to "$X.XM" (one decimal of the value over one million), values
above one thousand and at most one million to "$X.XK", and anything else to
a plain dollar figure with no decimals; in particular 250, 2500, 3400000
and 0/null map to "$250", "$2.5K", "$3.4M" and "$0". -/
theorem formatVolume_spec (v : Int) :
    formatVolume none = "$0" ∧
    formatVolume (some 0) = "$0" ∧
    (1000000 < v → formatVolume (some v) = "$" ++ toFixed1 v 1000000 ++ "M") ∧
    (1000 < v → v ≤ 1000000 → formatVolume (some v) = "$" ++ toFixed1 v 1000 ++ "K") ∧
    (v ≠ 0 → v ≤ 1000 → formatVolume (some v) = "$" ++ toString v) ∧
    formatVolume (some 250) = "$250" ∧
    formatVolume (some 2500) = "$2.5K" ∧
    formatVolume (some 3400000) = "$3.4M" := by
  refine ⟨rfl, by decide, ?_, ?_, ?_, by decide, by decide, by decide⟩
  · intro h
    show (if v = 0 then "$0"
      else if 1000000 < v then "$" ++ toFixed1 v 1000000 ++ "M"
      else if 1000 < v then "$" ++ toFixed1 v 1000 ++ "K" else "$" ++ toString v) =
        "$" ++ toFixed1 v 1000000 ++ "M"
    rw [if_neg (by omega), if_pos h]
  · intro h1 h2
    show (if v = 0 then "$0"
      else if 1000000 < v then "$" ++ toFixed1 v 1000000 ++ "M"
      else if 1000 < v then "$" ++ toFixed1 v 1000 ++ "K" else "$" ++ toString v) =
        "$" ++ toFixed1 v 1000 ++ "K"
    rw [if_neg (by omega), if_neg (by omega), if_pos h1]
  · intro h0 h1
    show (if v = 0 then "$0"
      else if 1000000 < v then "$" ++ toFixed1 v 1000000 ++ "M"
      else if 1000 < v then "$" ++ toFixed1 v 1000 ++ "K" else "$" ++ toString v) =
        "$" ++ toString v
    rw [if_neg h0, if_neg (by omega), if_neg (by omega)]

/-- C5 (witness): the K branch of the format theorem applied at 1500. -/
theorem formatVolume_spec_witness :
    (1000 : Int) < 1500 ∧ (1500 : Int) ≤ 1000000 ∧
    formatVolume (some 1500) = "$" ++ toFixed1 1500 1000 ++ "K" :=
  ⟨by decide, by decide, (formatVolume_spec 1500).2.2.2.1 (by decide) (by decide)⟩

/-- C6: the outcome classifier returns "favored" exactly when the price is
above 0.6, "underdog" exactly when it is below 0.4, and "neutral" exactly
otherwise; in particular 0.65, 0.35 and 0.5 map to "favored", "underdog"
and "neutral". -/
theorem outcomeClass_spec (p : ℚ) :
    (outcomeClass p = "favored" ↔ 0.6 < p) ∧
    (outcomeClass p = "underdog" ↔ p < 0.4) ∧
    (outcomeClass p = "neutral" ↔ 0.4 ≤ p ∧ p ≤ 0.6) ∧
    outcomeClass 0.65 = "favored" ∧
    outcomeClass 0.35 = "underdog" ∧
    outcomeClass 0.5 = "neutral" := by
  have hq : (0.4 : ℚ) < 0.6 := by norm_num
  refine ⟨?_, ?_, ?_, ?_, ?_, ?_⟩
  · unfold outcomeClass
    split_ifs with h1 h2
    · simp [h1]
    · exact iff_of_false (fun h => absurd h.symm (by decide)) h1
    · exact iff_of_false (fun h => absurd h.symm (by decide)) h1
  · unfold outcomeClass
    split_ifs with h1 h2
    · exact iff_of_false (fun h => absurd h (by decide)) (by intro h; linarith)
    · simp [h2]
    · exact iff_of_false (fun h => absurd h (by decide)) h2
  · unfold outcomeClass
    split_ifs with h1 h2
    · exact iff_of_false (fun h => absurd h (by decide)) (fun hc => absurd h1 (not_lt.mpr hc.2))
    · exact iff_of_false (fun h => absurd h (by decide)) (fun hc => absurd h2 (not_lt.mpr hc.1))
    · exact iff_of_true rfl ⟨not_lt.mp h2, not_lt.mp h1⟩
  · unfold outcomeClass
    rw [if_pos (by norm_num)]
  · unfold outcomeClass
    rw [if_neg (by norm_num), if_pos (by norm_num)]
  · unfold outcomeClass
    rw [if_neg (by norm_num), if_neg (by norm_num)]

/-- C6 (witness): the underdog characterization applied at price 0.35. -/
theorem outcomeClass_spec_witness : outcomeClass 0.35 = "underdog" :=
  (outcomeClass_spec 0.35).2.1.mpr (by norm_num)

/-- C7: the key-proxy handler responds in exactly one of three ways:
status 405 with an error body for every non-GET method, status 500 with an
error body for a GET when the secret is unset (or set to the empty string,
which the falsiness check treats as unconfigured), and status 200 with a
body carrying the configured secret otherwise; no other status is
possible. -/
theorem handler_spec (method : String) (envKey : Option String) :
    (method ≠ "GET" → handler method envKey = (405, ApiBody.err "Method not allowed")) ∧
    (method = "GET" → envKey = none →
      handler method envKey = (500, ApiBody.err "API key not configured")) ∧
    (method = "GET" → envKey = some "" →
      handler method envKey = (500, ApiBody.err "API key not configured")) ∧
    (∀ k : String, method = "GET" → envKey = some k → k ≠ "" →
      handler method envKey = (200, ApiBody.key k)) ∧
    ((handler method envKey).1 = 405 ∨ (handler method envKey).1 = 500 ∨
      (handler method envKey).1 = 200) := by
  refine ⟨?_, ?_, ?_, ?_, ?_⟩
  · intro h
    unfold handler
    rw [if_pos h]
  · intro hm hk
    subst hm
    subst hk
    rfl
  · intro hm hk
    subst hm
    subst hk
    rfl
  · intro k hm hk hne
    subst hm
    subst hk
    show (if ("GET" : String) ≠ "GET" then (405, ApiBody.err "Method not allowed")
      else if k = "" then (500, ApiBody.err "API key not configured")
      else (200, ApiBody.key k)) = (200, ApiBody.key k)
    rw [if_neg (by simp), if_neg hne]
  · by_cases hm : method = "GET"
    · subst hm
      cases envKey with
      | none => simp [handler]
      | some k =>
        by_cases hk : k = ""
        · subst hk
          simp [handler]
        · simp [handler, hk]
    · simp [handler, hm]

/-- C7 (witness): the three branches of the handler theorem at concrete
requests: a POST, a GET with no secret, and a GET with secret "secret". -/
theorem handler_spec_witness :
    handler "POST" (some "secret") = (405, ApiBody.err "Method not allowed") ∧
    handler "GET" none = (500, ApiBody.err "API key not configured") ∧
    handler "GET" (some "secret") = (200, ApiBody.key "secret") :=
  ⟨(handler_spec "POST" (some "secret")).1 (by decide),
    (handler_spec "GET" none).2.1 rfl rfl,
    (handler_spec "GET" (some "secret")).2.2.2.1 "secret" rfl rfl (by decide)⟩

/-- C8: when the model call fails during an accepted send, the controller
keeps every prior turn (the new history is the old one with the user turn
for this send followed by exactly one fixed-text error turn appended),
clears the busy flag, and a subsequent send with non-empty input is
accepted, appending two further turns rather than being dropped. -/
theorem sendMessage_err_spec (st : AppState) (d : List Market)
    (hL : st.isLoading = false) (hD : st.marketData = some d)
    (hM : jsTrim st.inputValue ≠ "") :
    sendMessage st ModelResult.err =
      AppState.mk
        (st.history ++ [⟨Sender.user, jsTrim st.inputValue⟩, ⟨Sender.bot, sendErrorText⟩])
        false (some d) "" ∧
    (sendMessage st ModelResult.err).isLoading = false ∧
    (∀ (m : String) (mr : ModelResult), jsTrim m ≠ "" →
      (sendMessage (AppState.mk (sendMessage st ModelResult.err).history false (some d) m)
          mr).history.length =
        (sendMessage st ModelResult.err).history.length + 2) := by
  obtain ⟨hh, ll, md, iv⟩ := st
  simp only at hL hD hM
  subst hL
  subst hD
  have h1 : sendMessage (AppState.mk hh false (some d) iv) ModelResult.err =
      AppState.mk (hh ++ [⟨Sender.user, jsTrim iv⟩, ⟨Sender.bot, sendErrorText⟩])
        false (some d) "" := by
    simp only [sendMessage, Bool.false_eq_true, if_false, if_neg hM, List.append_assoc,
      List.singleton_append]
  refine ⟨h1, by rw [h1], ?_⟩
  intro m mr hm
  rw [h1]
  cases mr with
  | ok text =>
    simp only [sendMessage, Bool.false_eq_true, if_false, if_neg hm, List.append_assoc,
      List.length_append]
    rfl
  | err =>
    simp only [sendMessage, Bool.false_eq_true, if_false, if_neg hm, List.append_assoc,
      List.length_append]
    rfl

/-- C8 (witness): the failure theorem applied to a ready state with one
prior exchange and input " hi ": the prior turns survive, the user turn and
the fixed error turn are appended, and the busy flag ends cleared. -/
theorem sendMessage_err_spec_witness :
    sendMessage (AppState.mk [⟨Sender.user, "q"⟩, ⟨Sender.bot, "a"⟩] false (some []) " hi ")
        ModelResult.err =
      AppState.mk
        ([⟨Sender.user, "q"⟩, ⟨Sender.bot, "a"⟩] ++
          [⟨Sender.user, jsTrim " hi "⟩, ⟨Sender.bot, sendErrorText⟩])
        false (some []) "" :=
  (sendMessage_err_spec
    (AppState.mk [⟨Sender.user, "q"⟩, ⟨Sender.bot, "a"⟩] false (some []) " hi ") []
    rfl rfl (by decide)).1

/-- C9 (counterexample): the drill-down action is not guarded by the busy
flag: from a state whose busy flag is set, `analyzeSpecificMarket` on an
existing market still consumes a model call and appends two conversation
turns, contradicting the claim that every new submission is rejected while
a request is in flight. -/
theorem analyzeSpecificMarket_ignores_busy_flag :
    (analyzeSpecificMarket
        (AppState.mk [] true (some [⟨"m1", some "t", some "d", some 0⟩]) "") "m1" "T"
        (ModelResult.ok "analysis")).history =
      [⟨Sender.user, "Tell me more about: T"⟩, ⟨Sender.bot, "analysis"⟩] ∧
    (AppState.mk [] true (some [⟨"m1", some "t", some "d", some 0⟩]) "").isLoading = true := by
  refine ⟨by decide, rfl⟩

/-- C9 (amended): while the busy flag is set, every `sendMessage`
submission is rejected and silently dropped (the state is returned
unchanged, so no model call starts and no turn is appended); the per-market
drill-down `analyzeSpecificMarket`, however, is not guarded: whenever its
market lookup succeeds it runs the model call and appends the drill-down
user turn and a reply turn, leaving the busy flag untouched. -/
theorem busy_guard_spec :
    (∀ (st : AppState) (mr : ModelResult), st.isLoading = true → sendMessage st mr = st) ∧
    (∀ (st : AppState) (mid mt r : String) (markets : List Market) (m : Market),
      st.marketData = some markets → markets.find? (fun x => x.id == mid) = some m →
      (analyzeSpecificMarket st mid mt (ModelResult.ok r)).history =
        st.history ++ [⟨Sender.user, "Tell me more about: " ++ mt⟩, ⟨Sender.bot, r⟩] ∧
      (analyzeSpecificMarket st mid mt (ModelResult.ok r)).isLoading = st.isLoading) := by
  constructor
  · intro st mr h
    unfold sendMessage
    rw [if_pos h]
  · intro st mid mt r markets m hD hF
    obtain ⟨hh, ll, md, iv⟩ := st
    simp only at hD
    subst hD
    simp only [analyzeSpecificMarket]
    rw [hF]
    simp [List.append_assoc]

/-- C9 (witness): the send guard applied to a concrete busy state — the
submission leaves the state unchanged. -/
theorem busy_guard_spec_witness :
    sendMessage (AppState.mk [] true (some []) "next question") ModelResult.err =
      AppState.mk [] true (some []) "next question" :=
  busy_guard_spec.1 (AppState.mk [] true (some []) "next question") ModelResult.err rfl

/-- C10: the volume bonus is query-independent: for every query (the empty
one included) the score of a market is at least its volume bonus, so a
market with volume24h above one million scores at least 3; consequently,
whenever some market in the list has volume24h above one million, the
scored selection is non-empty and the volume fallback branch is not taken. -/
theorem volume_weighting_spec (q t d : String) (v : Option Int) (ms : List Market)
    (entries : List (Market × Int)) :
    volumeBonus v ≤ score q t d v ∧
    (jsGt v 1000000 = true → 3 ≤ score q t d v) ∧
    (marketScores q ms = some entries →
      (∃ m ∈ ms, jsGt m.volume24h 1000000 = true) →
      topScored entries ≠ [] ∧ findRelevantMarkets q ms = some (topScored entries)) := by
  refine ⟨volumeBonus_le_score q t d v, ?_, ?_⟩
  · intro h
    exact le_trans (volumeBonus_ge_three v h) (volumeBonus_le_score q t d v)
  · intro hs hex
    exact scored_path_of_exists_bigvol q ms entries hs hex

/-- C10 (witness): the no-fallback consequence applied to the query "zzz"
(no token or category hits) over one market with 24h volume 2000000, which
scores 3 from the volume bonus alone. -/
theorem volume_weighting_spec_witness :
    topScored [(⟨"1", some "a", some "a", some 2000000⟩, 3)] ≠ [] ∧
    findRelevantMarkets "zzz" [⟨"1", some "a", some "a", some 2000000⟩] =
      some (topScored [(⟨"1", some "a", some "a", some 2000000⟩, 3)]) :=
  (volume_weighting_spec "zzz" "" "" none [⟨"1", some "a", some "a", some 2000000⟩]
      [(⟨"1", some "a", some "a", some 2000000⟩, 3)]).2.2 (by decide)
    ⟨⟨"1", some "a", some "a", some 2000000⟩, by simp, by decide⟩

end Polymarket
